import Mathlib

/-!
Verification development for the delay-and-sum matrix construction routine
`dasmtx` (file `src/pymust/dasmtx.py`).  The definitions below are shallow
embeddings of the routine's arithmetic: machine floating-point values are
idealised as exact rationals (for the index bookkeeping, which the code
performs on values that are conceptually exact) and as real numbers (for the
geometric travel-time formulas involving square roots and sines).
Definitions whose doc comment names a `spec` formula restate the
natural-language specification, for comparison with the source embedding.
-/

/-- The six interpolation schemes accepted by `dasmtx`
(`dasmtx.py`, line 272: nearest, linear, quadratic, lanczos3, 5points,
lanczos5). -/
inductive DASMethod
  | nearest
  | linear
  | quadratic
  | lanczos3
  | fivepoints
  | lanczos5
deriving DecidableEq

/-- `np.round` (round half to even), idealised on exact rationals.
Used by the `nearest` branch of `dasmtx` (line 550). -/
def nproundQ (q : ℚ) : ℤ :=
  if q - ⌊q⌋ < 1/2 then ⌊q⌋
  else if 1/2 < q - ⌊q⌋ then ⌊q⌋ + 1
  else if ⌊q⌋ % 2 = 0 then ⌊q⌋ else ⌊q⌋ + 1

/-- Number of adjacent unequal pairs in a Boolean list.  This is
`np.sum(np.abs(np.diff(idx)))` for a Boolean mask `idx`
(`dasmtx.py`, line 429); `np.diff` on Booleans is the XOR of adjacent
entries. -/
def numTransitions : List Bool → ℕ
  | [] => 0
  | [_] => 0
  | a :: b :: l => (if a = b then 0 else 1) + numTransitions (b :: l)

/-- The sub-aperture validation of `dasmtx` (line 429): the assertion
`np.sum(np.abs(np.diff(idx))) < 3` passes (returns `true`) exactly when the
active-element indicator has fewer than three adjacent changes. -/
def dasmtxSubapertureOK (active : List Bool) : Bool :=
  numTransitions active < 3

/-- A Boolean list whose `true` entries form one contiguous run (possibly
empty): leading `false`s, then `true`s, then only `false`s. -/
def isSingleRun (active : List Bool) : Bool :=
  ((active.dropWhile (fun b => !b)).dropWhile (fun b => b)).all (fun b => !b)

/-- Output-orientation choice of `dasmtx` (lines 598-610), taken when the
caller set the `TransposeDASMatrix` field: given the number of image points
and the product `nl*nc`, return the flag written back to
`param.TransposeDASMatrix` together with the shape (rows, columns) of the
returned sparse matrix.  The code keeps `(points, nl*nc)` with flag `False`
when `len(x) > nl*nc`, and otherwise returns the transposed
`(nl*nc, points)` with flag `True`. -/
def dasmtxOrient (numPoints nlnc : ℕ) : Bool × ℕ × ℕ :=
  if nlnc < numPoints then (false, numPoints, nlnc)
  else (true, nlnc, numPoints)

/-- In-range predicate of `dasmtx` (lines 500-512): the Boolean mask `I`
selecting the (point, element) pairs whose real-valued fast-time index
`idxt` is within the per-scheme bounds. -/
def dasmtxInRange (m : DASMethod) (nl : ℕ) (idxt : ℚ) : Bool :=
  match m with
  | .nearest => decide (0 ≤ idxt) && decide (idxt ≤ (nl : ℚ) - 1)
  | .linear => decide (0 ≤ idxt) && decide (idxt ≤ (nl : ℚ) - 2)
  | .quadratic => decide (0 ≤ idxt) && decide (idxt ≤ (nl : ℚ) - 3)
  | .lanczos3 => decide (0 ≤ idxt) && decide (idxt ≤ (nl : ℚ) - 3)
  | .fivepoints => decide (0 ≤ idxt) && decide (idxt ≤ (nl : ℚ) - 3)
  | .lanczos5 => decide (0 ≤ idxt) && decide (idxt ≤ (nl : ℚ) - 4)

/-- Linear column index of `dasmtx` (line 540):
`idx_matrix = idxt + arange(nc) * nl`, for a pair at element `e`. -/
def dasmtxLinIndex (e nl : ℕ) (idxt : ℚ) : ℚ :=
  idxt + (e : ℚ) * (nl : ℚ)

/-- `idxf = floor(idx)` of `dasmtx` (line 544), applied to the linear
column index of the pair. -/
def dasmtxIdxf (e nl : ℕ) (idxt : ℚ) : ℤ :=
  ⌊dasmtxLinIndex e nl idxt⌋

/-- `idx = idx - idxf` of `dasmtx` (line 545): the fractional residual of
the linear column index. -/
def dasmtxFrac (e nl : ℕ) (idxt : ℚ) : ℚ :=
  dasmtxLinIndex e nl idxt - (dasmtxIdxf e nl idxt : ℚ)

/-- Column indices emitted for one qualifying (point, element) pair by the
sparse-assembly dispatch of `dasmtx` (lines 549-592).  Note that the
`nearest` branch (line 550) computes `j = round(idx)` AFTER line 545 has
replaced `idx` by its fractional residual, so its column is
`round(frac)`, not the rounded linear index. -/
def dasmtxPairCols (m : DASMethod) (e nl : ℕ) (idxt : ℚ) : List ℤ :=
  let idxf := dasmtxIdxf e nl idxt
  match m with
  | .nearest => [nproundQ (dasmtxFrac e nl idxt)]
  | .linear => [idxf, idxf + 1]
  | .quadratic => [idxf, idxf + 1, idxf + 2]
  | .lanczos3 => [idxf - 1, idxf, idxf + 1, idxf + 2]
  | .fivepoints => [idxf - 2, idxf - 1, idxf, idxf + 1, idxf + 2]
  | .lanczos5 => [idxf - 2, idxf - 1, idxf, idxf + 1, idxf + 2, idxf + 3]

/-- Keyword parameters accepted by `scipy.optimize.fminbound` after the two
bounds, modelled from the scipy API: `args`, `xtol`, `full_output`,
`maxfun`, `disp`.  A call with any other keyword raises `TypeError`. -/
def scipyFminboundKwargs : List String :=
  ["args", "xtol", "full_output", "maxfun", "disp"]

/-- The keyword actually passed to `scipy.optimize.fminbound` at the
automatic f-number call site of `dasmtx` (line 459). -/
def dasmtxFminboundKwarg : String := "tolx"

/-- Coordinate-format sparse matrix as produced by
`scipy.sparse.coo_matrix((s,(i,j)), shape)`: parallel row, column and value
lists plus the declared shape. -/
structure COO where
  rows : List ℤ
  cols : List ℤ
  vals : List ℝ
  shape : ℕ × ℕ

/-- Index validity check of `scipy.sparse.coo_matrix`: every index must be
nonnegative and below the corresponding dimension, else construction raises
`ValueError`. -/
def cooIndexOK (n : ℕ) (l : List ℤ) : Bool :=
  l.all fun k => decide (0 ≤ k) && decide (k < (n : ℤ))

/-- `scipy.sparse.coo_matrix((vals,(rows,cols)), shape)`, modelled from the
scipy API: returns the matrix when all indices are in range, and an error
otherwise. -/
def cooMatrix (sh : ℕ × ℕ) (rows cols : List ℤ) (vals : List ℝ) :
    Except String COO :=
  if cooIndexOK sh.1 rows then
    if cooIndexOK sh.2 cols then .ok ⟨rows, cols, vals, sh⟩
    else .error "column index out of range"
  else .error "row index out of range"

/-- Concatenation of a list of lists (the effect of `np.concatenate`). -/
def concatLists {α : Type} (ls : List (List α)) : List α :=
  ls.foldr (fun a b => a ++ b) []

/-- Normalised sinc, `np.sinc`: `sin(pi t)/(pi t)` with value 1 at 0. -/
noncomputable def sincR (t : ℝ) : ℝ :=
  if t = 0 then 1 else Real.sin (Real.pi * t) / (Real.pi * t)

/-- Interpolation weights emitted for one qualifying (point, element) pair
by the sparse-assembly dispatch of `dasmtx` (lines 549-592), real (RF)
case.  For `5points` these are the weights written in the right-hand side
of line 578 (the statement `s *= ...`); the statement itself faults, which
`dasmtxAssemble` models. -/
noncomputable def dasmtxPairVals (m : DASMethod) (e nl : ℕ) (idxt : ℚ) :
    List ℝ :=
  let d : ℝ := (dasmtxFrac e nl idxt : ℚ)
  match m with
  | .nearest => [1]
  | .linear => [1 - d, d]
  | .quadratic => [(d - 1) * (d - 2) / 2, -d * (d - 2), d * (d - 1) / 2]
  | .lanczos3 =>
      [sincR (d + 1) * sincR ((d + 1) / 2),
       sincR d * sincR (d / 2),
       sincR (d - 1) * sincR ((d - 1) / 2),
       sincR (d - 2) * sincR ((d - 2) / 2)]
  | .fivepoints =>
      [1/7 * d^2 - 1/5 * d - 3/35,
       -1/14 * d^2 - 1/10 * d + 12/35,
       -1/7 * d^2 + 17/35,
       -1/14 * d^2 + 1/10 * d + 12/35,
       1/7 * d^2 + 1/5 * d - 3/35]
  | .lanczos5 =>
      [sincR (d + 2) * sincR ((d + 2) / 2),
       sincR (d + 1) * sincR ((d + 1) / 2),
       sincR d * sincR (d / 2),
       sincR (d - 1) * sincR ((d - 1) / 2),
       sincR (d - 2) * sincR ((d - 2) / 2),
       sincR (d - 3) * sincR ((d - 3) / 2)]

/-- Sparse assembly of `dasmtx` (lines 540-613), real (RF) case, without
the `TransposeDASMatrix` field (lines 611-613): given the selected
qualifying pairs `(pointIndex, elementIndex, idxt)`, build the coordinate
entries and construct the `(numPoints, nl*nc)` matrix.  The `5points`
branch (line 578) reads the local variable `s` before any assignment to it
(`s *= ...`), so on that method the routine raises `UnboundLocalError`
before any entry is built. -/
noncomputable def dasmtxAssemble (m : DASMethod)
    (pairs : List (ℕ × ℕ × ℚ)) (numPoints nl nc : ℕ) :
    Except String COO :=
  match m with
  | .fivepoints => .error "UnboundLocalError"
  | _ =>
    let rows : List ℤ := concatLists (pairs.map fun p =>
      (dasmtxPairCols m p.2.1 nl p.2.2).map fun _ => (p.1 : ℤ))
    let cols : List ℤ := concatLists (pairs.map fun p =>
      dasmtxPairCols m p.2.1 nl p.2.2)
    let vals : List ℝ := concatLists (pairs.map fun p =>
      dasmtxPairVals m p.2.1 nl p.2.2)
    cooMatrix (numPoints, nl * nc) rows cols vals

/-- `spec` formula (section 4.5, row 5points): the five least-squares
parabolic-fit weights, closed form in the fractional residual. -/
noncomputable def spec_fivePointsWeights (d : ℝ) : List ℝ :=
  [1/7 * d^2 - 1/5 * d - 3/35,
   -1/14 * d^2 - 1/10 * d + 12/35,
   -1/7 * d^2 + 17/35,
   -1/14 * d^2 + 1/10 * d + 12/35,
   1/7 * d^2 + 1/5 * d - 3/35]

/-- Minimum of a list of reals (the effect of `np.min` along an axis;
`np.min` on an empty list is an error, so uses are guarded by
nonemptiness). -/
noncomputable def listMinR : List ℝ → ℝ
  | [] => 0
  | [a] => a
  | a :: b :: l => min a (listMinR (b :: l))

/-- Receive distance of `dasmtx` (lines 488-490):
`dRX = sqrt(dxT^2 + dzT^2)` with `dxT = x - xe`, `dzT = z - ze`. -/
noncomputable def dasmtxDRX (x z xe ze : ℝ) : ℝ :=
  Real.sqrt ((x - xe)^2 + (z - ze)^2)

/-- Transmit distance of `dasmtx` (lines 478-481): zero in passive mode,
else `min(delaysTXi*c + sqrt((xTi-x)^2 + (zTi-z)^2))` over the virtual
front points.  A front point is `(xTi, zTi, delayTXi)`. -/
noncomputable def dasmtxDTX (passive : Bool) (c x z : ℝ)
    (front : List (ℝ × ℝ × ℝ)) : ℝ :=
  if passive then 0
  else listMinR (front.map fun f =>
    f.2.2 * c + Real.sqrt ((f.1 - x)^2 + (f.2.1 - z)^2))

/-- Travel time of `dasmtx` (line 493): `tau = (dTX + dRX)/c`. -/
noncomputable def dasmtxTau (passive : Bool) (c x z : ℝ)
    (front : List (ℝ × ℝ × ℝ)) (xe ze : ℝ) : ℝ :=
  (dasmtxDTX passive c x z front + dasmtxDRX x z xe ze) / c

/-- Real-valued fast-time index of `dasmtx` (line 496):
`idxt = (tau - t0) * fs`. -/
noncomputable def dasmtxIdxtR (passive : Bool) (c fs t0 x z : ℝ)
    (front : List (ℝ × ℝ × ℝ)) (xe ze : ℝ) : ℝ :=
  (dasmtxTau passive c x z front xe ze - t0) * fs

/-- `spec` formula (section 4.4): `d_RX(p,e) = sqrt((x-xe)^2 + (z-ze)^2)`. -/
noncomputable def spec_dRX (x z xe ze : ℝ) : ℝ :=
  Real.sqrt ((x - xe)^2 + (z - ze)^2)

/-- `spec` formula (section 4.4): `d_TX(p)` is 0 in passive mode, else the
minimum over virtual front points `f` of
`delay_f * c + sqrt((x-xf)^2 + (z-zf)^2)`. -/
noncomputable def spec_dTX (passive : Bool) (c x z : ℝ)
    (front : List (ℝ × ℝ × ℝ)) : ℝ :=
  if passive then 0
  else listMinR (front.map fun f =>
    f.2.2 * c + Real.sqrt ((x - f.1)^2 + (z - f.2.1)^2))

/-- `spec` formula (section 4.4): `tau(p,e) = (d_TX(p) + d_RX(p,e)) / c`. -/
noncomputable def spec_tau (passive : Bool) (c x z : ℝ)
    (front : List (ℝ × ℝ × ℝ)) (xe ze : ℝ) : ℝ :=
  (spec_dTX passive c x z front + spec_dRX x z xe ze) / c

/-- `spec` formula (section 4.4): `idx(p,e) = (tau(p,e) - t0) * fs`. -/
noncomputable def spec_idx (passive : Bool) (c fs t0 x z : ℝ)
    (front : List (ℝ × ℝ × ℝ)) (xe ze : ℝ) : ℝ :=
  (spec_tau passive c x z front xe ze - t0) * fs

/-! ### Helper lemmas -/

/-- If a Boolean list is all `false`, it has no transitions. -/
theorem numTransitions_allFalse :
    ∀ l : List Bool, l.all (fun b => !b) = true → numTransitions l = 0
  | [], _ => rfl
  | [_], _ => rfl
  | a :: b :: l, h => by
      simp only [List.all_cons, Bool.and_eq_true, Bool.not_eq_eq_eq_not,
        Bool.not_true] at h
      obtain ⟨ha, hb, hl⟩ := h
      have hrec := numTransitions_allFalse (b :: l)
        (by simp [List.all_cons, hb, hl])
      rw [hb] at hrec
      simp [numTransitions, ha, hb, hrec]

/-- A list of the form (trues, then only falses) has at most one
transition. -/
theorem numTransitions_truesThenFalses :
    ∀ l : List Bool,
      (l.dropWhile (fun b => b)).all (fun b => !b) = true →
      numTransitions l ≤ 1
  | [], _ => by simp [numTransitions]
  | false :: l, h => by
      simp only [List.dropWhile] at h
      have h0 := numTransitions_allFalse (false :: l)
        (by simpa [List.all_cons] using h)
      omega
  | [true], _ => by simp [numTransitions]
  | true :: true :: l, h => by
      have hrec := numTransitions_truesThenFalses (true :: l)
        (by simpa [List.dropWhile] using h)
      simpa [numTransitions] using hrec
  | true :: false :: l, h => by
      simp only [List.dropWhile] at h
      have h0 := numTransitions_allFalse (false :: l)
        (by simpa [List.all_cons] using h)
      simp [numTransitions, h0]

/-- A single contiguous run of actives has at most two transitions. -/
theorem numTransitions_singleRun :
    ∀ l : List Bool, isSingleRun l = true → numTransitions l ≤ 2
  | [], _ => by simp [numTransitions]
  | true :: l, h => by
      have h1 := numTransitions_truesThenFalses (true :: l)
        (by simpa [isSingleRun, List.dropWhile] using h)
      omega
  | [false], _ => by simp [numTransitions]
  | false :: false :: l, h => by
      have hrec := numTransitions_singleRun (false :: l)
        (by simpa [isSingleRun, List.dropWhile] using h)
      simpa [numTransitions] using hrec
  | false :: true :: l, h => by
      have h1 := numTransitions_truesThenFalses (true :: l)
        (by simpa [isSingleRun, List.dropWhile] using h)
      simp [numTransitions]
      omega

/-- Floor against an integer upper bound, over the rationals. -/
theorem floorQ_le_int {q : ℚ} {n : ℤ} (h : q ≤ (n : ℚ)) : ⌊q⌋ ≤ n := by
  have := Int.floor_mono h
  simpa using this

/-- `nproundQ` respects an integer upper bound. -/
theorem nproundQ_le_int {q : ℚ} {n : ℤ} (h : q ≤ (n : ℚ)) : nproundQ q ≤ n := by
  have hfl : ⌊q⌋ ≤ n := floorQ_le_int h
  have hq : (⌊q⌋ : ℚ) ≤ q := Int.floor_le q
  rw [nproundQ]
  split_ifs with h1 h2 h3
  · exact hfl
  · by_contra hc
    push_neg at hc
    have h4 : n ≤ ⌊q⌋ := by omega
    have h5 : q ≤ (⌊q⌋ : ℚ) := le_trans h (by exact_mod_cast h4)
    linarith
  · exact hfl
  · push_neg at h1
    by_contra hc
    push_neg at hc
    have h4 : n ≤ ⌊q⌋ := by omega
    have h5 : q ≤ (⌊q⌋ : ℚ) := le_trans h (by exact_mod_cast h4)
    linarith

/-- `nproundQ` of a nonnegative rational is nonnegative. -/
theorem nproundQ_nonneg {q : ℚ} (h : 0 ≤ q) : 0 ≤ nproundQ q := by
  have h0 : 0 ≤ ⌊q⌋ := Int.floor_nonneg.mpr h
  rw [nproundQ]
  split_ifs <;> omega

/-- The fractional residual of line 545 is nonnegative. -/
theorem dasmtxFrac_nonneg (e nl : ℕ) (idxt : ℚ) : 0 ≤ dasmtxFrac e nl idxt := by
  have := Int.floor_le (dasmtxLinIndex e nl idxt)
  unfold dasmtxFrac dasmtxIdxf
  linarith

/-- The fractional residual of line 545 is below one. -/
theorem dasmtxFrac_lt_one (e nl : ℕ) (idxt : ℚ) : dasmtxFrac e nl idxt < 1 := by
  have := Int.lt_floor_add_one (dasmtxLinIndex e nl idxt)
  unfold dasmtxFrac dasmtxIdxf
  linarith

/-- Rounding a rational in `[0,1)` gives `0` or `1`. -/
theorem nproundQ_unit {q : ℚ} (h0 : 0 ≤ q) (h1 : q < 1) :
    nproundQ q = 0 ∨ nproundQ q = 1 := by
  have hf : ⌊q⌋ = 0 := Int.floor_eq_zero_iff.mpr ⟨h0, h1⟩
  rw [nproundQ, hf]
  split_ifs <;> omega

/-- The floored linear column index splits into the element block offset
plus the floored fast-time index. -/
theorem dasmtxIdxf_split (e nl : ℕ) (idxt : ℚ) :
    dasmtxIdxf e nl idxt = (e * nl : ℤ) + ⌊idxt⌋ := by
  unfold dasmtxIdxf dasmtxLinIndex
  have : (e : ℚ) * (nl : ℚ) = ((e * nl : ℕ) : ℚ) := by push_cast; ring
  rw [this, Int.floor_add_nat]
  push_cast
  ring

/-- The fractional residual of the linear column index equals the
fractional residual of the fast-time index. -/
theorem dasmtxFrac_split (e nl : ℕ) (idxt : ℚ) :
    dasmtxFrac e nl idxt = idxt - ⌊idxt⌋ := by
  unfold dasmtxFrac dasmtxLinIndex
  rw [dasmtxIdxf_split]
  push_cast
  ring

/-! ### Claim theorems -/

/-- Claim C1: for every image point and element, the routine computes the
receive distance `d_RX = sqrt((x-xe)^2+(z-ze)^2)`, the transmit distance
`d_TX` as 0 in passive mode and otherwise as the minimum over virtual front
points of `delay*c + sqrt((x-xf)^2+(z-zf)^2)`, the travel time
`tau = (d_TX + d_RX)/c`, and the real-valued fast-time index
`(tau - t0)*fs`. -/
theorem claim_C1_travel_time (passive : Bool) (c fs t0 x z xe ze : ℝ)
    (front : List (ℝ × ℝ × ℝ)) (hf : front ≠ []) :
    dasmtxDRX x z xe ze = spec_dRX x z xe ze
    ∧ dasmtxDTX passive c x z front = spec_dTX passive c x z front
    ∧ dasmtxTau passive c x z front xe ze = spec_tau passive c x z front xe ze
    ∧ dasmtxIdxtR passive c fs t0 x z front xe ze
        = (spec_tau passive c x z front xe ze - t0) * fs := by
  have hRX : dasmtxDRX x z xe ze = spec_dRX x z xe ze := rfl
  have hTX : dasmtxDTX passive c x z front = spec_dTX passive c x z front := by
    unfold dasmtxDTX spec_dTX
    cases passive with
    | true => rfl
    | false =>
        simp only [Bool.false_eq_true, if_false]
        congr 1
        apply List.map_congr_left
        intro f _
        have h1 : (f.1 - x)^2 = (x - f.1)^2 := by ring
        have h2 : (f.2.1 - z)^2 = (z - f.2.1)^2 := by ring
        rw [h1, h2]
  have hTau : dasmtxTau passive c x z front xe ze
      = spec_tau passive c x z front xe ze := by
    unfold dasmtxTau spec_tau
    rw [hTX, hRX]
  refine ⟨hRX, hTX, hTau, ?_⟩
  unfold dasmtxIdxtR
  rw [hTau]

/-- Witness for C1 at a concrete configuration (one front point). -/
theorem claim_C1_witness :
    ([((0 : ℝ), (0 : ℝ), (0 : ℝ))] ≠ ([] : List (ℝ × ℝ × ℝ)))
    ∧ (dasmtxDRX 1 2 0 0 = spec_dRX 1 2 0 0
       ∧ dasmtxDTX false 1540 1 2 [((0 : ℝ), (0 : ℝ), (0 : ℝ))]
           = spec_dTX false 1540 1 2 [((0 : ℝ), (0 : ℝ), (0 : ℝ))]
       ∧ dasmtxTau false 1540 1 2 [((0 : ℝ), (0 : ℝ), (0 : ℝ))] 0 0
           = spec_tau false 1540 1 2 [((0 : ℝ), (0 : ℝ), (0 : ℝ))] 0 0
       ∧ dasmtxIdxtR false 1540 20000000 0 1 2 [((0 : ℝ), (0 : ℝ), (0 : ℝ))] 0 0
           = (spec_tau false 1540 1 2 [((0 : ℝ), (0 : ℝ), (0 : ℝ))] 0 0 - 0)
               * 20000000) :=
  ⟨by simp,
   claim_C1_travel_time false 1540 20000000 0 1 2 0 0
     [((0 : ℝ), (0 : ℝ), (0 : ℝ))] (by simp)⟩

/-- Claim C2 counterexample: with 1 image point and `nl*nc = 4`, the point
count is fewer than `nl*nc`, yet the routine transposes the matrix to
`(nl*nc, points) = (4, 1)` and signals `TransposeDASMatrix = True` — the
claim predicted the matrix be kept as `(points, nl*nc) = (1, 4)` and be
transposed only when the point count exceeds `nl*nc`. -/
theorem claim_C2_counterexample :
    (1 : ℕ) < 4
    ∧ (dasmtxOrient 1 4).1 = true
    ∧ (dasmtxOrient 1 4).2 = (4, 1) := by decide

/-- Claim C2 amended: the matrix is kept as `(points, nl*nc)` with flag
`False` exactly when the point count exceeds `nl*nc`, and otherwise (point
count at most `nl*nc`) it is transposed to `(nl*nc, points)` with flag
`True`; the chosen orientation is signaled back via the flag. -/
theorem claim_C2_amended (numPoints nlnc : ℕ) :
    ((dasmtxOrient numPoints nlnc).1 = true ↔ numPoints ≤ nlnc)
    ∧ ((dasmtxOrient numPoints nlnc).1 = true →
        (dasmtxOrient numPoints nlnc).2 = (nlnc, numPoints))
    ∧ ((dasmtxOrient numPoints nlnc).1 = false →
        (dasmtxOrient numPoints nlnc).2 = (numPoints, nlnc)) := by
  unfold dasmtxOrient
  by_cases h : nlnc < numPoints <;> simp [h] <;> omega

/-- Witness for the amended C2 at a concrete size. -/
theorem claim_C2_witness :
    ((dasmtxOrient 2 10).1 = true ↔ 2 ≤ 10)
    ∧ (dasmtxOrient 2 10).2 = (10, 2) :=
  ⟨(claim_C2_amended 2 10).1, (claim_C2_amended 2 10).2.1 (by decide)⟩

/-- Claim C3 counterexample: the delay vector `[0, NaN, 0]` has active
indicator `[true, false, true]`, whose active elements do NOT form a single
contiguous run, yet its indicator has only 2 adjacent changes, so the
check `sum(abs(diff(idx))) < 3` passes and the routine does not reject —
contradicting both the claimed iff and the claimed threshold (2 sign
changes would already reject under the claim). -/
theorem claim_C3_counterexample :
    dasmtxSubapertureOK [true, false, true] = true
    ∧ isSingleRun [true, false, true] = false := by decide

/-- Claim C3 amended: the routine rejects a transmit-delay vector exactly
when the active/inactive indicator has at least 3 adjacent sign changes;
every single contiguous run of actives is accepted, but the test is
strictly weaker than contiguity — non-contiguous patterns with at most two
boundaries (first and last element both active) are also accepted. -/
theorem claim_C3_amended :
    (∀ active : List Bool,
        dasmtxSubapertureOK active = false ↔ 3 ≤ numTransitions active)
    ∧ (∀ active : List Bool,
        isSingleRun active = true → dasmtxSubapertureOK active = true) := by
  constructor
  · intro active
    simp only [dasmtxSubapertureOK, decide_eq_false_iff_not]
    omega
  · intro active h
    have := numTransitions_singleRun active h
    simp only [dasmtxSubapertureOK, decide_eq_true_eq]
    omega

/-- Witness for the amended C3 at a concrete contiguous sub-aperture. -/
theorem claim_C3_witness :
    isSingleRun [false, true, true, false] = true
    ∧ dasmtxSubapertureOK [false, true, true, false] = true :=
  ⟨by decide, claim_C3_amended.2 [false, true, true, false] (by decide)⟩

/-- Claim C4 (code bug): the `nearest` branch places its single weight at
column `round(idx - floor(idx))`, which is always 0 or 1 — not at
`elementIndex*nl + round(fast-time index)` as claimed.  Concretely, at
element 3 (0-based) with `nl = 1000` and fast-time index `519.48`, the
emitted column is 0 while the claim requires `3*1000 + 519 = 3519`. -/
theorem claim_C4_nearest_column_bug :
    (∀ (e nl : ℕ) (idxt : ℚ),
        dasmtxPairCols .nearest e nl idxt = [nproundQ (dasmtxFrac e nl idxt)]
        ∧ (nproundQ (dasmtxFrac e nl idxt) = 0
           ∨ nproundQ (dasmtxFrac e nl idxt) = 1))
    ∧ dasmtxPairCols .nearest 3 1000 (12987/25) = [0]
    ∧ (3 * 1000 : ℤ) + nproundQ (12987/25) = 3519 := by
  refine ⟨fun e nl idxt => ⟨rfl, ?_⟩, ?_, ?_⟩
  · exact nproundQ_unit (dasmtxFrac_nonneg e nl idxt) (dasmtxFrac_lt_one e nl idxt)
  · norm_num [dasmtxPairCols, dasmtxFrac, dasmtxIdxf, dasmtxLinIndex, nproundQ]
  · norm_num [nproundQ]

/-- Claim C5 (code bug): the `5points` weight formulas written in the
source are exactly the claimed five-term polynomial set, but the branch
assigns them with `s *= ...` while the local variable `s` has no prior
assignment, so the routine raises `UnboundLocalError` instead of
completing. -/
theorem claim_C5_fivepoints_fault :
    (∀ (pairs : List (ℕ × ℕ × ℚ)) (numPoints nl nc : ℕ),
        dasmtxAssemble .fivepoints pairs numPoints nl nc
          = .error "UnboundLocalError")
    ∧ (∀ (e nl : ℕ) (idxt : ℚ),
        dasmtxPairVals .fivepoints e nl idxt
          = spec_fivePointsWeights ((dasmtxFrac e nl idxt : ℚ) : ℝ)) :=
  ⟨fun _ _ _ _ => rfl, fun _ _ _ => rfl⟩

/-- Claim C6 (code bug): the automatic f-number call site passes the
keyword `tolx` to `scipy.optimize.fminbound`, which accepts only `args`,
`xtol`, `full_output`, `maxfun` and `disp` — the call raises `TypeError`
before any minimisation runs (the intended keyword is `xtol`). -/
theorem claim_C6_fminbound_keyword :
    scipyFminboundKwargs.contains dasmtxFminboundKwarg = false
    ∧ scipyFminboundKwargs.contains "xtol" = true := by decide

/-- Claim C7: whenever the in-range mask of lines 500-512 admits a
(point, element) pair, the per-scheme bounds of the claim hold: `nearest`
has `0 ≤ round(idxt) ≤ nl-1`, `linear` has `0 ≤ floor(idxt) ≤ nl-2`,
`quadratic`/`lanczos3`/`5points` have `0 ≤ floor(idxt) ≤ nl-3`, and
`lanczos5` has `0 ≤ floor(idxt) ≤ nl-4`. -/
theorem claim_C7_stencil_margin (m : DASMethod) (nl : ℕ) (idxt : ℚ)
    (h : dasmtxInRange m nl idxt = true) :
    match m with
    | .nearest => 0 ≤ nproundQ idxt ∧ nproundQ idxt ≤ (nl : ℤ) - 1
    | .linear => 0 ≤ ⌊idxt⌋ ∧ ⌊idxt⌋ ≤ (nl : ℤ) - 2
    | .quadratic => 0 ≤ ⌊idxt⌋ ∧ ⌊idxt⌋ ≤ (nl : ℤ) - 3
    | .lanczos3 => 0 ≤ ⌊idxt⌋ ∧ ⌊idxt⌋ ≤ (nl : ℤ) - 3
    | .fivepoints => 0 ≤ ⌊idxt⌋ ∧ ⌊idxt⌋ ≤ (nl : ℤ) - 3
    | .lanczos5 => 0 ≤ ⌊idxt⌋ ∧ ⌊idxt⌋ ≤ (nl : ℤ) - 4 := by
  cases m with
  | nearest =>
      simp only [dasmtxInRange, Bool.and_eq_true, decide_eq_true_eq] at h
      exact ⟨nproundQ_nonneg h.1,
        nproundQ_le_int (n := (nl : ℤ) - 1) (by push_cast; linarith [h.2])⟩
  | linear =>
      simp only [dasmtxInRange, Bool.and_eq_true, decide_eq_true_eq] at h
      exact ⟨Int.floor_nonneg.mpr h.1,
        floorQ_le_int (n := (nl : ℤ) - 2) (by push_cast; linarith [h.2])⟩
  | quadratic =>
      simp only [dasmtxInRange, Bool.and_eq_true, decide_eq_true_eq] at h
      exact ⟨Int.floor_nonneg.mpr h.1,
        floorQ_le_int (n := (nl : ℤ) - 3) (by push_cast; linarith [h.2])⟩
  | lanczos3 =>
      simp only [dasmtxInRange, Bool.and_eq_true, decide_eq_true_eq] at h
      exact ⟨Int.floor_nonneg.mpr h.1,
        floorQ_le_int (n := (nl : ℤ) - 3) (by push_cast; linarith [h.2])⟩
  | fivepoints =>
      simp only [dasmtxInRange, Bool.and_eq_true, decide_eq_true_eq] at h
      exact ⟨Int.floor_nonneg.mpr h.1,
        floorQ_le_int (n := (nl : ℤ) - 3) (by push_cast; linarith [h.2])⟩
  | lanczos5 =>
      simp only [dasmtxInRange, Bool.and_eq_true, decide_eq_true_eq] at h
      exact ⟨Int.floor_nonneg.mpr h.1,
        floorQ_le_int (n := (nl : ℤ) - 4) (by push_cast; linarith [h.2])⟩

/-- Witness for C7 at the `linear` scheme, `nl = 3`, index `1/2`. -/
theorem claim_C7_witness :
    dasmtxInRange .linear 3 (1/2) = true
    ∧ (0 ≤ ⌊(1/2 : ℚ)⌋ ∧ ⌊(1/2 : ℚ)⌋ ≤ (3 : ℤ) - 2) :=
  ⟨by norm_num [dasmtxInRange],
   claim_C7_stencil_margin .linear 3 (1/2) (by norm_num [dasmtxInRange])⟩

/-- Claim C8: for the `linear` scheme, every qualifying pair yields exactly
two taps, at the floored index and its successor within the element's
column block, with weights `1 - delta` and `delta` that sum to 1, where
`delta = idxt - floor(idxt)` lies in `[0, 1)`. -/
theorem claim_C8_linear_weights (e nl : ℕ) (idxt : ℚ)
    (h : dasmtxInRange .linear nl idxt = true) :
    dasmtxPairCols .linear e nl idxt
      = [(e * nl : ℤ) + ⌊idxt⌋, (e * nl : ℤ) + ⌊idxt⌋ + 1]
    ∧ dasmtxPairVals .linear e nl idxt
      = [1 - ((idxt - ⌊idxt⌋ : ℚ) : ℝ), ((idxt - ⌊idxt⌋ : ℚ) : ℝ)]
    ∧ (1 - ((idxt - ⌊idxt⌋ : ℚ) : ℝ)) + ((idxt - ⌊idxt⌋ : ℚ) : ℝ) = 1
    ∧ 0 ≤ idxt - ⌊idxt⌋ ∧ idxt - ⌊idxt⌋ < 1 := by
  have hfl := dasmtxIdxf_split e nl idxt
  have hfr := dasmtxFrac_split e nl idxt
  refine ⟨?_, ?_, by ring, ?_, ?_⟩
  · simp [dasmtxPairCols, hfl]
  · simp [dasmtxPairVals, hfr]
  · have := Int.floor_le idxt
    linarith
  · have := Int.lt_floor_add_one idxt
    push_cast at this
    linarith

/-- Witness for C8 at element 2, `nl = 5`, index `7/3`. -/
theorem claim_C8_witness :
    dasmtxInRange .linear 5 (7/3) = true
    ∧ (dasmtxPairCols .linear 2 5 (7/3)
         = [(2 * 5 : ℤ) + ⌊(7/3 : ℚ)⌋, (2 * 5 : ℤ) + ⌊(7/3 : ℚ)⌋ + 1]
       ∧ dasmtxPairVals .linear 2 5 (7/3)
         = [1 - (((7/3 : ℚ) - ⌊(7/3 : ℚ)⌋ : ℚ) : ℝ),
            (((7/3 : ℚ) - ⌊(7/3 : ℚ)⌋ : ℚ) : ℝ)]
       ∧ (1 - (((7/3 : ℚ) - ⌊(7/3 : ℚ)⌋ : ℚ) : ℝ))
           + (((7/3 : ℚ) - ⌊(7/3 : ℚ)⌋ : ℚ) : ℝ) = 1
       ∧ 0 ≤ (7/3 : ℚ) - ⌊(7/3 : ℚ)⌋ ∧ (7/3 : ℚ) - ⌊(7/3 : ℚ)⌋ < 1) :=
  ⟨by norm_num [dasmtxInRange],
   claim_C8_linear_weights 2 5 (7/3) (by norm_num [dasmtxInRange])⟩

/-- Claim C9 (code bug): an empty selection (no qualifying pair) is not
itself an error — for five of the six schemes the routine returns the
valid all-zero sparse operator of the full declared shape
`(numPoints, nl*nc)` with no stored entries — but with method `5points`
the routine still raises `UnboundLocalError`, even on an empty selection,
because of the `s *=` slip of line 578. -/
theorem claim_C9_empty_selection (numPoints nl nc : ℕ) :
    dasmtxAssemble .nearest [] numPoints nl nc
      = .ok ⟨[], [], [], (numPoints, nl * nc)⟩
    ∧ dasmtxAssemble .linear [] numPoints nl nc
      = .ok ⟨[], [], [], (numPoints, nl * nc)⟩
    ∧ dasmtxAssemble .quadratic [] numPoints nl nc
      = .ok ⟨[], [], [], (numPoints, nl * nc)⟩
    ∧ dasmtxAssemble .lanczos3 [] numPoints nl nc
      = .ok ⟨[], [], [], (numPoints, nl * nc)⟩
    ∧ dasmtxAssemble .lanczos5 [] numPoints nl nc
      = .ok ⟨[], [], [], (numPoints, nl * nc)⟩
    ∧ dasmtxAssemble .fivepoints [] numPoints nl nc
      = .error "UnboundLocalError" :=
  ⟨rfl, rfl, rfl, rfl, rfl, rfl⟩

/-- If the row indices pass the `coo_matrix` check but the column indices
do not, construction fails with the column error. -/
theorem cooMatrix_badcol (sh : ℕ × ℕ) (rows cols : List ℤ) (vals : List ℝ)
    (hr : cooIndexOK sh.1 rows = true) (hcb : cooIndexOK sh.2 cols = false) :
    cooMatrix sh rows cols vals = .error "column index out of range" := by
  rw [cooMatrix, if_pos hr, if_neg (by simp [hcb])]

/-- Claim C10 (code bug): for `lanczos3` the in-range mask only requires
`idxt >= 0`, yet the stencil reaches offset −1 below the floored index; a
qualifying pair at element 0 with `idxt = 1/2 ∈ [0,1)` emits the
out-of-range column −1 (so `coo_matrix` construction fails), and at
element 1 the same index emits column 3, inside element 0's sample block
rather than element 1's own block `[4, 8)`. -/
theorem claim_C10_lanczos3_column_escape :
    dasmtxInRange .lanczos3 4 (1/2) = true
    ∧ dasmtxPairCols .lanczos3 0 4 (1/2) = [-1, 0, 1, 2]
    ∧ dasmtxPairCols .lanczos3 1 4 (1/2) = [3, 4, 5, 6]
    ∧ dasmtxAssemble .lanczos3 [(0, 0, 1/2)] 1 4 1
        = .error "column index out of range" := by
  have hc : dasmtxPairCols .lanczos3 0 4 (1/2) = [-1, 0, 1, 2] := by
    norm_num [dasmtxPairCols, dasmtxIdxf, dasmtxLinIndex]
  refine ⟨by norm_num [dasmtxInRange], hc, ?_, ?_⟩
  · norm_num [dasmtxPairCols, dasmtxIdxf, dasmtxLinIndex]
  · show cooMatrix (1, 4 * 1)
        (concatLists ([((0 : ℕ), (0 : ℕ), (1/2 : ℚ))].map fun p =>
          (dasmtxPairCols .lanczos3 p.2.1 4 p.2.2).map fun _ => (p.1 : ℤ)))
        (concatLists ([((0 : ℕ), (0 : ℕ), (1/2 : ℚ))].map fun p =>
          dasmtxPairCols .lanczos3 p.2.1 4 p.2.2))
        (concatLists ([((0 : ℕ), (0 : ℕ), (1/2 : ℚ))].map fun p =>
          dasmtxPairVals .lanczos3 p.2.1 4 p.2.2)) = _
    simp only [List.map_cons, List.map_nil, concatLists, List.foldr_cons,
      List.foldr_nil, List.append_nil, hc]
    apply cooMatrix_badcol
    · simp only [hc, List.map_cons, List.map_nil]
      decide
    · simp only [hc]
      decide
